import Mathlib

/-
Verification development for the stdio-to-HTTP MCP bridge
(source: src/src/http-bridge.ts).

Modelling conventions:
- JavaScript strings are modelled as `List Char`.
- `JSON.parse` is modelled by the executable `jsonParse` below (an
  integer-subset JSON grammar: numbers are integers; this suffices for
  every payload the development evaluates).  All structural theorems are
  stated for an arbitrary parse function `p : List Char → Option Json`,
  so they do not depend on the details of the parser model.
- The bridge's event-driven execution is modelled as a state machine:
  the environment supplies a trace of events (stdin data chunks, the
  stdin end event, and HTTP completion events for outstanding requests)
  and `step` performs the corresponding synchronous JavaScript handler
  atomically, exactly as the single-threaded event loop does.
- Ghost fields (`sentRequests`, `completedCount`, `framedLines`,
  `stdoutLines`, `stderrLines`) record the observable effects: outgoing
  HTTP requests and their headers, lines handed to `processLine`,
  stdout writes and stderr diagnostics.
-/

namespace Bridge

/-- Whitespace recognised by the JavaScript `String.prototype.trim`
(the ASCII part; exotic Unicode spaces are outside the model). -/
def wsChar (c : Char) : Bool :=
  c = ' ' || c = '\t' || c = '\n' || c = '\r' || c = '\x0b' || c = '\x0c'

/-- Model of JavaScript `s.trim()`: drop whitespace from both ends. -/
def trimChars (l : List Char) : List Char :=
  ((l.dropWhile wsChar).reverse.dropWhile wsChar).reverse

/-- Last element of a list of segments, the empty segment as fallback
(model of `lines.pop() || ''`). -/
def lastPart : List (List Char) → List Char
  | [] => []
  | [x] => x
  | _ :: xs => lastPart xs

/-- Model of JavaScript `s.split('\n')`: split on every newline, keeping
empty segments; always returns at least one (possibly empty) segment. -/
def splitNl : List Char → List (List Char)
  | [] => [[]]
  | c :: cs =>
    if c = '\n' then [] :: splitNl cs
    else
      match splitNl cs with
      | [] => [[c]]
      | h :: t => (c :: h) :: t

/-- Model of JavaScript `hay.includes(needle)` (substring test). -/
def hasSub (hay needle : List Char) : Bool :=
  (List.range (hay.length + 1)).any fun i => (hay.drop i).take needle.length == needle

/-- Model of JavaScript `s.startsWith(pre)`. -/
def beginsWith : List Char → List Char → Bool
  | [], _ => true
  | _ :: _, [] => false
  | a :: as, b :: bs => a == b && beginsWith as bs

/-- JSON values (the `any` results of `JSON.parse` in the source).
Numbers are modelled as integers. -/
inductive Json where
  | null : Json
  | bool : Bool → Json
  | num : Int → Json
  | str : List Char → Json
  | arr : List Json → Json
  | obj : List (List Char × Json) → Json

/-- JavaScript truthiness of a JSON value, as tested by `if (response)`:
`null`, `false`, `0` and the empty string are falsy. -/
def jsTruthy : Json → Bool
  | .null => false
  | .bool b => b
  | .num n => n != 0
  | .str s => !s.isEmpty
  | .arr _ => true
  | .obj _ => true

/-- JSON insignificant whitespace (the four characters of RFC 8259). -/
def jsonWs (c : Char) : Bool :=
  c = ' ' || c = '\t' || c = '\n' || c = '\r'

def skipJsonWs (l : List Char) : List Char := l.dropWhile jsonWs

def hexVal (c : Char) : Option Nat :=
  if '0' ≤ c && c ≤ '9' then some (c.toNat - 48)
  else if 'a' ≤ c && c ≤ 'f' then some (c.toNat - 87)
  else if 'A' ≤ c && c ≤ 'F' then some (c.toNat - 55)
  else none

/-- Parse the rest of a JSON string literal (after the opening quote),
returning the decoded characters and the remaining input. -/
def parseStringBody : List Char → Option (List Char × List Char)
  | '"' :: rest => some ([], rest)
  | '\\' :: '"' :: r => (fun p => ('"' :: p.1, p.2)) <$> parseStringBody r
  | '\\' :: '\\' :: r => (fun p => ('\\' :: p.1, p.2)) <$> parseStringBody r
  | '\\' :: '/' :: r => (fun p => ('/' :: p.1, p.2)) <$> parseStringBody r
  | '\\' :: 'b' :: r => (fun p => ('\x08' :: p.1, p.2)) <$> parseStringBody r
  | '\\' :: 'f' :: r => (fun p => ('\x0c' :: p.1, p.2)) <$> parseStringBody r
  | '\\' :: 'n' :: r => (fun p => ('\n' :: p.1, p.2)) <$> parseStringBody r
  | '\\' :: 'r' :: r => (fun p => ('\r' :: p.1, p.2)) <$> parseStringBody r
  | '\\' :: 't' :: r => (fun p => ('\t' :: p.1, p.2)) <$> parseStringBody r
  | '\\' :: 'u' :: h1 :: h2 :: h3 :: h4 :: r =>
    match hexVal h1, hexVal h2, hexVal h3, hexVal h4 with
    | some a, some b, some c, some d =>
      (fun p => (Char.ofNat (((a * 16 + b) * 16 + c) * 16 + d) :: p.1, p.2)) <$>
        parseStringBody r
    | _, _, _, _ => none
  | '\\' :: _ => none
  | c :: rest => (fun p => (c :: p.1, p.2)) <$> parseStringBody rest
  | [] => none

def digitsToNat (ds : List Char) : Nat :=
  ds.foldl (fun a c => a * 10 + (c.toNat - 48)) 0

/-- Parse an integer JSON number (optional minus sign, then digits). -/
def parseNum (l : List Char) : Option (Json × List Char) :=
  match l with
  | '-' :: rest =>
    match rest.takeWhile Char.isDigit with
    | [] => none
    | ds => some (.num (-(digitsToNat ds : Int)), rest.dropWhile Char.isDigit)
  | _ =>
    match l.takeWhile Char.isDigit with
    | [] => none
    | ds => some (.num (digitsToNat ds : Int), l.dropWhile Char.isDigit)

mutual

/-- Fuel-indexed JSON value parser (model of the recursive descent inside
`JSON.parse`). -/
def parseValue : Nat → List Char → Option (Json × List Char)
  | 0, _ => none
  | Nat.succ fuel, l =>
    match skipJsonWs l with
    | 'n' :: 'u' :: 'l' :: 'l' :: r => some (.null, r)
    | 't' :: 'r' :: 'u' :: 'e' :: r => some (.bool true, r)
    | 'f' :: 'a' :: 'l' :: 's' :: 'e' :: r => some (.bool false, r)
    | '"' :: r => (fun p => (Json.str p.1, p.2)) <$> parseStringBody r
    | '[' :: r =>
      (match skipJsonWs r with
       | ']' :: r2 => some (.arr [], r2)
       | r2 => (fun p => (Json.arr p.1, p.2)) <$> parseElems fuel r2)
    | '{' :: r =>
      (match skipJsonWs r with
       | '}' :: r2 => some (.obj [], r2)
       | r2 => (fun p => (Json.obj p.1, p.2)) <$> parseMembers fuel r2)
    | rest => parseNum rest

/-- Parse one or more array elements followed by the closing bracket. -/
def parseElems : Nat → List Char → Option (List Json × List Char)
  | 0, _ => none
  | Nat.succ fuel, l => do
    let (v, r) ← parseValue fuel l
    match skipJsonWs r with
    | ',' :: r2 => (fun p => (v :: p.1, p.2)) <$> parseElems fuel r2
    | ']' :: r2 => some ([v], r2)
    | _ => none

/-- Parse one or more object members followed by the closing brace. -/
def parseMembers : Nat → List Char → Option (List (List Char × Json) × List Char)
  | 0, _ => none
  | Nat.succ fuel, l =>
    match skipJsonWs l with
    | '"' :: r => do
      let (k, r1) ← parseStringBody r
      match skipJsonWs r1 with
      | ':' :: r2 => do
        let (v, r3) ← parseValue fuel r2
        match skipJsonWs r3 with
        | ',' :: r4 => (fun p => ((k, v) :: p.1, p.2)) <$> parseMembers fuel r4
        | '}' :: r4 => some ([(k, v)], r4)
        | _ => none
      | _ => none
    | _ => none

end

/-- Model of `JSON.parse`: parse one JSON value and require that only
whitespace remains; `none` models a thrown `SyntaxError`. -/
def jsonParse (l : List Char) : Option Json :=
  match parseValue (2 * l.length + 2) l with
  | some (v, rest) => if skipJsonWs rest = [] then some v else none
  | none => none

def escChar (c : Char) : List Char :=
  if c = '"' then ['\\', '"']
  else if c = '\\' then ['\\', '\\']
  else if c = '\n' then ['\\', 'n']
  else if c = '\t' then ['\\', 't']
  else if c = '\r' then ['\\', 'r']
  else [c]

mutual

/-- Model of `JSON.stringify` on parsed values (minified output, keys in
stored order, matching the V8 behaviour on JSON data). -/
def stringify : Json → List Char
  | .null => ('n' :: 'u' :: 'l' :: 'l' :: [])
  | .bool true => ('t' :: 'r' :: 'u' :: 'e' :: [])
  | .bool false => ('f' :: 'a' :: 'l' :: 's' :: 'e' :: [])
  | .num n => (toString n).toList
  | .str s => '"' :: s.foldr (fun c acc => escChar c ++ acc) ['"']
  | .arr xs => '[' :: stringifyItems xs ++ [']']
  | .obj ms => '{' :: stringifyPairs ms ++ ['}']

def stringifyItems : List Json → List Char
  | [] => []
  | x :: rest =>
    stringify x ++ (if rest.isEmpty then [] else ',' :: stringifyItems rest)

def stringifyPairs : List (List Char × Json) → List Char
  | [] => []
  | (k, v) :: rest =>
    ('"' :: k.foldr (fun c acc => escChar c ++ acc) ['"']) ++ ':' :: stringify v ++
      (if rest.isEmpty then [] else ',' :: stringifyPairs rest)

end

/-- The literal prefix `data: ` of a server-sent-event data line. -/
def ssePfx : List Char := ('d' :: 'a' :: 't' :: 'a' :: ':' :: ' ' :: [])

/-- The event-stream content type tested by `includes`. -/
def sseCT : List Char := "text/event-stream".toList

/-- Model of `parseSSE` (http-bridge.ts lines 17-27): walk the lines of
the body, and for each line starting with `data: ` try to parse the rest
as JSON, pushing successful parses in order. -/
def parseSSE (p : List Char → Option Json) (body : List Char) : List Json :=
  (splitNl body).foldl
    (fun events line =>
      if beginsWith ssePfx line then
        match p (line.drop 6) with
        | some e => events ++ [e]
        | none => events
      else events) []

/-- One outgoing HTTP request, as recorded when `sendRequest` issues it:
the optional `Mcp-Session-Id` header and the serialized body. -/
structure SentRequest where
  sessionHeader : Option (List Char)
  body : List Char
deriving DecidableEq

/-- Diagnostics written to stderr. -/
inductive Diag where
  | parseError : Diag
  | requestError : List Char → Diag
deriving DecidableEq

/-- The bridge's state.  `sessionId`, `pendingRequests`, `stdinClosed`
and `buffer` are the mutable variables of http-bridge.ts; `inFlight`
counts outstanding HTTP requests (those issued and not yet completed);
the remaining fields are ghost observation logs. -/
structure BridgeState where
  sessionId : Option (List Char)
  pendingRequests : Int
  stdinClosed : Bool
  buffer : List Char
  inFlight : Nat
  sentRequests : List SentRequest
  completedCount : Nat
  framedLines : List (List Char)
  stdoutLines : List (List Char)
  stderrLines : List Diag
  exited : Bool
deriving DecidableEq

/-- An HTTP response as observed by the bridge: the
`mcp-session-id` header if present, the `content-type` header
(absent modelled as the empty string, matching `|| ''`), and the body. -/
structure HttpResponse where
  mcpSessionId : Option (List Char)
  contentType : List Char
  body : List Char

/-- Completion of one outstanding HTTP request: a response, or a
network-level error with its message. -/
inductive HttpOutcome where
  | success : HttpResponse → HttpOutcome
  | failure : List Char → HttpOutcome

/-- Environment events driving the bridge. -/
inductive Event where
  | data : List Char → Event
  | endInput : Event
  | complete : HttpOutcome → Event

/-- Model of `checkExit` (lines 29-33): exit with status 0 when stdin is
closed and no request is pending. -/
def checkExit (s : BridgeState) : BridgeState :=
  if s.stdinClosed && s.pendingRequests == 0 then { s with exited := true } else s

/-- JavaScript truthiness test `if (sessionId)` used when attaching the
`Mcp-Session-Id` request header: an unset or empty token is not sent. -/
def jsSessionHeader : Option (List Char) → Option (List Char)
  | some v => if v = [] then none else some v
  | none => none

/-- Update of `sessionId` from a response header (lines 58-61): the new
value is stored only when present and truthy (non-empty). -/
def updateSession (cur : Option (List Char)) (hdr : Option (List Char)) :
    Option (List Char) :=
  match hdr with
  | some v => if v = [] then cur else some v
  | none => cur

/-- Model of the response-body decoding in `sendRequest` (lines 70-83):
blank body gives no events; an event-stream content type goes through
`parseSSE`; anything else is parsed as a single JSON document, a parse
failure giving no events. -/
def decodeBody (p : List Char → Option Json) (contentType body : List Char) :
    List Json :=
  if trimChars body = [] then []
  else if hasSub contentType sseCT then parseSSE p body
  else
    match p body with
    | some j => [j]
    | none => []

/-- Model of the output loop of `processLine` (lines 104-108): write each
truthy decoded event as its JSON serialization plus a newline. -/
def writeResponses (rs : List Json) : List (List Char) :=
  rs.foldl (fun out r => if jsTruthy r then out ++ [stringify r ++ ['\n']] else out) []

/-- The synchronous prefix of `processLine` (lines 97-115): blank lines
return at once; a line that fails to parse writes a diagnostic and runs
`checkExit` (the `finally` block); a valid line increments
`pendingRequests` and issues the HTTP request (recorded in
`sentRequests` / `inFlight`), then suspends awaiting the response. -/
def processLineStart (p : List Char → Option Json) (s : BridgeState)
    (line : List Char) : BridgeState :=
  if trimChars line = [] then s
  else
    match p line with
    | none => checkExit { s with stderrLines := s.stderrLines ++ [Diag.parseError] }
    | some req =>
      { s with
        pendingRequests := s.pendingRequests + 1,
        inFlight := s.inFlight + 1,
        sentRequests := s.sentRequests ++
          [{ sessionHeader := jsSessionHeader s.sessionId, body := stringify req }] }

/-- The stdin `data` handler (lines 122-130): append the chunk to the
buffer, split on newlines, keep the last segment as the new buffer and
hand every other segment to `processLine` without awaiting. -/
def onData (p : List Char → Option Json) (s : BridgeState) (chunk : List Char) :
    BridgeState :=
  let parts := splitNl (s.buffer ++ chunk)
  let s1 := { s with
    buffer := lastPart parts,
    framedLines := s.framedLines ++ parts.dropLast }
  parts.dropLast.foldl (processLineStart p) s1

/-- The stdin `end` handler (lines 132-138): hand the remaining buffer to
`processLine` when it is not blank, set `stdinClosed`, and run
`checkExit`. -/
def onEnd (p : List Char → Option Json) (s : BridgeState) : BridgeState :=
  let s1 :=
    if trimChars s.buffer = [] then s
    else processLineStart p { s with framedLines := s.framedLines ++ [s.buffer] } s.buffer
  checkExit { s1 with stdinClosed := true }

/-- Completion of one outstanding HTTP request: the resumed part of
`sendRequest` and `processLine`.  On success (response `end`, lines
58-83 and 104-114): update the session token from the header, decrement
`pendingRequests`, decode the body, write the truthy events to stdout,
and run `checkExit`.  On failure (lines 85-88 and the `catch`):
decrement `pendingRequests`, write the error diagnostic, and run
`checkExit`. -/
def completeStep (p : List Char → Option Json) (s : BridgeState) :
    HttpOutcome → BridgeState
  | .failure msg =>
    checkExit { s with
      pendingRequests := s.pendingRequests - 1,
      inFlight := s.inFlight - 1,
      completedCount := s.completedCount + 1,
      stderrLines := s.stderrLines ++ [Diag.requestError msg] }
  | .success resp =>
    checkExit { s with
      sessionId := updateSession s.sessionId resp.mcpSessionId,
      pendingRequests := s.pendingRequests - 1,
      inFlight := s.inFlight - 1,
      completedCount := s.completedCount + 1,
      stdoutLines := s.stdoutLines ++
        writeResponses (decodeBody p resp.contentType resp.body) }

/-- One environment event.  A terminated process performs no further
transitions; `data`/`end` cannot arrive after stdin has ended; a
completion can only occur while a request is outstanding. -/
def step (p : List Char → Option Json) (s : BridgeState) : Event → BridgeState
  | .data chunk => if s.exited || s.stdinClosed then s else onData p s chunk
  | .endInput => if s.exited || s.stdinClosed then s else onEnd p s
  | .complete oc => if s.exited || s.inFlight == 0 then s else completeStep p s oc

/-- Run the bridge from a state through a trace of events. -/
def run (p : List Char → Option Json) (s : BridgeState) (events : List Event) :
    BridgeState :=
  events.foldl (step p) s

/-- The startup state of the bridge. -/
def initState : BridgeState :=
  { sessionId := none
    pendingRequests := 0
    stdinClosed := false
    buffer := []
    inFlight := 0
    sentRequests := []
    completedCount := 0
    framedLines := []
    stdoutLines := []
    stderrLines := []
    exited := false }

/-- Modelled from the spec (section 4.1): the lines the Line Framer hands
to the dispatcher for a complete input text — every newline-separated
segment except the last, plus the final segment when it is not
whitespace-only.  Used to compare the code's framing with the spec. -/
def specFramerLines (input : List Char) : List (List Char) :=
  let parts := splitNl input
  parts.dropLast ++
    (if trimChars (lastPart parts) = [] then [] else [lastPart parts])

/-- Concatenation of a sequence of input chunks. -/
def joinChunks (cs : List (List Char)) : List Char :=
  cs.foldr (· ++ ·) []

/-- Modelled from the spec (claim C2's words, section 4.4): write every
event that is not absent/null, skipping only null.  Used to compare the
code's output writer with the claimed behaviour. -/
def writeEventsSpecC2 (rs : List Json) : List (List Char) :=
  rs.filterMap fun r =>
    match r with
    | .null => none
    | _ => some (stringify r ++ ['\n'])

/-- Accounting invariant of the pending-request counter: it equals the
number of outstanding requests, and every issued request is either
outstanding or completed. -/
def countInv (s : BridgeState) : Prop :=
  s.pendingRequests = (s.inFlight : Int) ∧
  (s.sentRequests.length : Int) = s.pendingRequests + (s.completedCount : Int)

/-- Exit invariant: the process has exited exactly when stdin is closed
and no request is pending. -/
def exitInv (s : BridgeState) : Prop :=
  s.exited = (s.stdinClosed && s.pendingRequests == 0)

/-- Session-token sanity: a stored token is never the empty string. -/
def sessionOk (s : BridgeState) : Prop :=
  ∀ v, s.sessionId = some v → v ≠ []

/- ------------------------------------------------------------------ -/
/- Theorems                                                           -/
/- ------------------------------------------------------------------ -/

theorem checkExit_cases (s : BridgeState) :
    checkExit s = s ∨ checkExit s = { s with exited := true } := by
  unfold checkExit
  split
  · exact Or.inr rfl
  · exact Or.inl rfl

theorem checkExit_sessionId (s : BridgeState) :
    (checkExit s).sessionId = s.sessionId := by
  rcases checkExit_cases s with h | h <;> rw [h]

theorem checkExit_pendingRequests (s : BridgeState) :
    (checkExit s).pendingRequests = s.pendingRequests := by
  rcases checkExit_cases s with h | h <;> rw [h]

theorem checkExit_stdinClosed (s : BridgeState) :
    (checkExit s).stdinClosed = s.stdinClosed := by
  rcases checkExit_cases s with h | h <;> rw [h]

theorem checkExit_buffer (s : BridgeState) :
    (checkExit s).buffer = s.buffer := by
  rcases checkExit_cases s with h | h <;> rw [h]

theorem checkExit_inFlight (s : BridgeState) :
    (checkExit s).inFlight = s.inFlight := by
  rcases checkExit_cases s with h | h <;> rw [h]

theorem checkExit_sentRequests (s : BridgeState) :
    (checkExit s).sentRequests = s.sentRequests := by
  rcases checkExit_cases s with h | h <;> rw [h]

theorem checkExit_completedCount (s : BridgeState) :
    (checkExit s).completedCount = s.completedCount := by
  rcases checkExit_cases s with h | h <;> rw [h]

theorem checkExit_framedLines (s : BridgeState) :
    (checkExit s).framedLines = s.framedLines := by
  rcases checkExit_cases s with h | h <;> rw [h]

theorem checkExit_stdoutLines (s : BridgeState) :
    (checkExit s).stdoutLines = s.stdoutLines := by
  rcases checkExit_cases s with h | h <;> rw [h]

theorem checkExit_stderrLines (s : BridgeState) :
    (checkExit s).stderrLines = s.stderrLines := by
  rcases checkExit_cases s with h | h <;> rw [h]

theorem checkExit_exited_of_not_closed (s : BridgeState)
    (h : s.stdinClosed = false) : (checkExit s).exited = s.exited := by
  unfold checkExit
  rw [h]
  simp

theorem checkExit_exitInv (s : BridgeState) (h : s.exited = false) :
    exitInv (checkExit s) := by
  unfold checkExit exitInv
  split
  case isTrue hc =>
    simpa using hc.symm
  case isFalse hc =>
    have : (s.stdinClosed && s.pendingRequests == 0) = false :=
      Bool.not_eq_true _ ▸ (by simpa using hc)
    simpa [this] using h

theorem pls_cases (p : List Char → Option Json) (s : BridgeState) (line : List Char) :
    processLineStart p s line = s ∨
    processLineStart p s line
      = checkExit { s with stderrLines := s.stderrLines ++ [Diag.parseError] } ∨
    ∃ req, p line = some req ∧ processLineStart p s line
      = { s with
          pendingRequests := s.pendingRequests + 1,
          inFlight := s.inFlight + 1,
          sentRequests := s.sentRequests ++
            [{ sessionHeader := jsSessionHeader s.sessionId, body := stringify req }] } := by
  unfold processLineStart
  split
  · exact Or.inl rfl
  · rcases hp : p line with _ | req
    · exact Or.inr (Or.inl rfl)
    · exact Or.inr (Or.inr ⟨req, rfl, rfl⟩)

theorem pls_sessionId (p : List Char → Option Json) (s : BridgeState) (line : List Char) :
    (processLineStart p s line).sessionId = s.sessionId := by
  rcases pls_cases p s line with h | h | ⟨req, _, h⟩ <;> rw [h] <;>
    simp [checkExit_sessionId]

theorem pls_stdinClosed (p : List Char → Option Json) (s : BridgeState) (line : List Char) :
    (processLineStart p s line).stdinClosed = s.stdinClosed := by
  rcases pls_cases p s line with h | h | ⟨req, _, h⟩ <;> rw [h] <;>
    simp [checkExit_stdinClosed]

theorem pls_buffer (p : List Char → Option Json) (s : BridgeState) (line : List Char) :
    (processLineStart p s line).buffer = s.buffer := by
  rcases pls_cases p s line with h | h | ⟨req, _, h⟩ <;> rw [h] <;>
    simp [checkExit_buffer]

theorem pls_framedLines (p : List Char → Option Json) (s : BridgeState) (line : List Char) :
    (processLineStart p s line).framedLines = s.framedLines := by
  rcases pls_cases p s line with h | h | ⟨req, _, h⟩ <;> rw [h] <;>
    simp [checkExit_framedLines]

theorem pls_stdoutLines (p : List Char → Option Json) (s : BridgeState) (line : List Char) :
    (processLineStart p s line).stdoutLines = s.stdoutLines := by
  rcases pls_cases p s line with h | h | ⟨req, _, h⟩ <;> rw [h] <;>
    simp [checkExit_stdoutLines]

theorem pls_exited_of_not_closed (p : List Char → Option Json) (s : BridgeState)
    (line : List Char) (h : s.stdinClosed = false) :
    (processLineStart p s line).exited = s.exited := by
  rcases pls_cases p s line with he | he | ⟨req, _, he⟩ <;> rw [he]
  rw [checkExit_exited_of_not_closed _ (by simpa using h)]

theorem pls_countInv (p : List Char → Option Json) (s : BridgeState) (line : List Char)
    (h : countInv s) : countInv (processLineStart p s line) := by
  obtain ⟨h1, h2⟩ := h
  rcases pls_cases p s line with he | he | ⟨req, _, he⟩ <;> rw [he]
  · exact ⟨h1, h2⟩
  · exact ⟨by rw [checkExit_pendingRequests, checkExit_inFlight]; exact h1,
      by rw [checkExit_sentRequests, checkExit_pendingRequests, checkExit_completedCount]
         exact h2⟩
  · constructor
    · simpa using by omega
    · simpa using by omega

theorem pls_sentRequests_sub (p : List Char → Option Json) (s : BridgeState)
    (line : List Char) (r : SentRequest)
    (h : r ∈ (processLineStart p s line).sentRequests) :
    r ∈ s.sentRequests ∨ r.sessionHeader = jsSessionHeader s.sessionId := by
  rcases pls_cases p s line with he | he | ⟨req, _, he⟩ <;> rw [he] at h
  · exact Or.inl h
  · rw [checkExit_sentRequests] at h
    exact Or.inl h
  · simp only [List.mem_append, List.mem_singleton] at h
    rcases h with h | h
    · exact Or.inl h
    · exact Or.inr (by rw [h])

theorem foldlPls_sessionId (p : List Char → Option Json) :
    ∀ (lines : List (List Char)) (s : BridgeState),
      (lines.foldl (processLineStart p) s).sessionId = s.sessionId := by
  intro lines
  induction lines with
  | nil => intro s; rfl
  | cons l ls ih =>
    intro s
    rw [List.foldl_cons, ih, pls_sessionId]

theorem foldlPls_stdinClosed (p : List Char → Option Json) :
    ∀ (lines : List (List Char)) (s : BridgeState),
      (lines.foldl (processLineStart p) s).stdinClosed = s.stdinClosed := by
  intro lines
  induction lines with
  | nil => intro s; rfl
  | cons l ls ih =>
    intro s
    rw [List.foldl_cons, ih, pls_stdinClosed]

theorem foldlPls_buffer (p : List Char → Option Json) :
    ∀ (lines : List (List Char)) (s : BridgeState),
      (lines.foldl (processLineStart p) s).buffer = s.buffer := by
  intro lines
  induction lines with
  | nil => intro s; rfl
  | cons l ls ih =>
    intro s
    rw [List.foldl_cons, ih, pls_buffer]

theorem foldlPls_framedLines (p : List Char → Option Json) :
    ∀ (lines : List (List Char)) (s : BridgeState),
      (lines.foldl (processLineStart p) s).framedLines = s.framedLines := by
  intro lines
  induction lines with
  | nil => intro s; rfl
  | cons l ls ih =>
    intro s
    rw [List.foldl_cons, ih, pls_framedLines]

theorem foldlPls_exited_of_not_closed (p : List Char → Option Json) :
    ∀ (lines : List (List Char)) (s : BridgeState), s.stdinClosed = false →
      (lines.foldl (processLineStart p) s).exited = s.exited := by
  intro lines
  induction lines with
  | nil => intro s _; rfl
  | cons l ls ih =>
    intro s h
    rw [List.foldl_cons, ih _ (by rw [pls_stdinClosed]; exact h),
      pls_exited_of_not_closed _ _ _ h]

theorem foldlPls_countInv (p : List Char → Option Json) :
    ∀ (lines : List (List Char)) (s : BridgeState), countInv s →
      countInv (lines.foldl (processLineStart p) s) := by
  intro lines
  induction lines with
  | nil => intro s h; exact h
  | cons l ls ih =>
    intro s h
    rw [List.foldl_cons]
    exact ih _ (pls_countInv p s l h)

theorem foldlPls_sentRequests_sub (p : List Char → Option Json) :
    ∀ (lines : List (List Char)) (s : BridgeState) (r : SentRequest),
      r ∈ (lines.foldl (processLineStart p) s).sentRequests →
      r ∈ s.sentRequests ∨ r.sessionHeader = jsSessionHeader s.sessionId := by
  intro lines
  induction lines with
  | nil => intro s r h; exact Or.inl h
  | cons l ls ih =>
    intro s r h
    rw [List.foldl_cons] at h
    rcases ih _ r h with h2 | h2
    · rcases pls_sentRequests_sub p s l r h2 with h3 | h3
      · exact Or.inl h3
      · exact Or.inr h3
    · rw [pls_sessionId] at h2
      exact Or.inr h2

theorem onData_sessionId (p : List Char → Option Json) (s : BridgeState)
    (chunk : List Char) : (onData p s chunk).sessionId = s.sessionId := by
  unfold onData
  rw [foldlPls_sessionId]

theorem onData_stdinClosed (p : List Char → Option Json) (s : BridgeState)
    (chunk : List Char) : (onData p s chunk).stdinClosed = s.stdinClosed := by
  unfold onData
  rw [foldlPls_stdinClosed]

theorem onData_buffer (p : List Char → Option Json) (s : BridgeState)
    (chunk : List Char) :
    (onData p s chunk).buffer = lastPart (splitNl (s.buffer ++ chunk)) := by
  unfold onData
  rw [foldlPls_buffer]

theorem onData_framedLines (p : List Char → Option Json) (s : BridgeState)
    (chunk : List Char) :
    (onData p s chunk).framedLines
      = s.framedLines ++ (splitNl (s.buffer ++ chunk)).dropLast := by
  unfold onData
  rw [foldlPls_framedLines]

theorem onData_exited_of_not_closed (p : List Char → Option Json) (s : BridgeState)
    (chunk : List Char) (h : s.stdinClosed = false) :
    (onData p s chunk).exited = s.exited := by
  unfold onData
  rw [foldlPls_exited_of_not_closed _ _ _ (by simpa using h)]

theorem onData_countInv (p : List Char → Option Json) (s : BridgeState)
    (chunk : List Char) (h : countInv s) : countInv (onData p s chunk) := by
  unfold onData
  exact foldlPls_countInv p _ _ ⟨h.1, h.2⟩

theorem onData_sentRequests_sub (p : List Char → Option Json) (s : BridgeState)
    (chunk : List Char) (r : SentRequest)
    (h : r ∈ (onData p s chunk).sentRequests) :
    r ∈ s.sentRequests ∨ r.sessionHeader = jsSessionHeader s.sessionId := by
  simp only [onData] at h
  simpa using foldlPls_sentRequests_sub p _ _ r h

theorem onEnd_sessionId (p : List Char → Option Json) (s : BridgeState) :
    (onEnd p s).sessionId = s.sessionId := by
  unfold onEnd
  rw [checkExit_sessionId]
  split <;> simp [pls_sessionId]

theorem onEnd_framedLines (p : List Char → Option Json) (s : BridgeState) :
    (onEnd p s).framedLines
      = s.framedLines ++ (if trimChars s.buffer = [] then [] else [s.buffer]) := by
  unfold onEnd
  rw [checkExit_framedLines]
  split
  case isTrue h => simp [h]
  case isFalse h => simp [h, pls_framedLines]

theorem onEnd_exitInv (p : List Char → Option Json) (s : BridgeState)
    (h1 : s.stdinClosed = false) (h2 : s.exited = false) : exitInv (onEnd p s) := by
  unfold onEnd
  apply checkExit_exitInv
  split
  case isTrue _ => exact h2
  case isFalse _ =>
    show (processLineStart p _ s.buffer).exited = false
    rw [pls_exited_of_not_closed _ _ _ (by simpa using h1)]
    exact h2

theorem onEnd_countInv (p : List Char → Option Json) (s : BridgeState)
    (h : countInv s) : countInv (onEnd p s) := by
  simp only [onEnd]
  split
  case isTrue _ =>
    exact ⟨by rw [checkExit_pendingRequests, checkExit_inFlight]; exact h.1,
      by rw [checkExit_sentRequests, checkExit_pendingRequests, checkExit_completedCount]
         exact h.2⟩
  case isFalse _ =>
    have h2 := pls_countInv p { s with framedLines := s.framedLines ++ [s.buffer] }
      s.buffer ⟨h.1, h.2⟩
    exact ⟨by rw [checkExit_pendingRequests, checkExit_inFlight]; exact h2.1,
      by rw [checkExit_sentRequests, checkExit_pendingRequests, checkExit_completedCount]
         exact h2.2⟩

theorem onEnd_sentRequests_sub (p : List Char → Option Json) (s : BridgeState)
    (r : SentRequest) (h : r ∈ (onEnd p s).sentRequests) :
    r ∈ s.sentRequests ∨ r.sessionHeader = jsSessionHeader s.sessionId := by
  simp only [onEnd] at h
  rw [checkExit_sentRequests] at h
  revert h
  split
  case isTrue _ => exact fun h => Or.inl h
  case isFalse _ =>
    exact fun h => pls_sentRequests_sub p
      { s with framedLines := s.framedLines ++ [s.buffer] } s.buffer r h

theorem updateSession_of_some (v : List Char) (hdr : Option (List Char)) :
    ∃ w, updateSession (some v) hdr = some w := by
  rcases hdr with _ | u
  · exact ⟨v, rfl⟩
  · by_cases hu : u = []
    · exact ⟨v, by simp [updateSession, hu]⟩
    · exact ⟨u, by simp [updateSession, hu]⟩

theorem updateSession_ok (cur : Option (List Char)) (hdr : Option (List Char))
    (hc : ∀ v, cur = some v → v ≠ []) :
    ∀ v, updateSession cur hdr = some v → v ≠ [] := by
  intro v hv
  rcases hdr with _ | u
  · exact hc v hv
  · by_cases hu : u = []
    · rw [show updateSession cur (some u) = cur by simp [updateSession, hu]] at hv
      exact hc v hv
    · rw [show updateSession cur (some u) = some u by simp [updateSession, hu]] at hv
      cases hv
      exact hu

theorem completeStep_sentRequests (p : List Char → Option Json) (s : BridgeState)
    (oc : HttpOutcome) : (completeStep p s oc).sentRequests = s.sentRequests := by
  cases oc <;> simp [completeStep, checkExit_sentRequests]

theorem completeStep_exitInv (p : List Char → Option Json) (s : BridgeState)
    (oc : HttpOutcome) (h : s.exited = false) : exitInv (completeStep p s oc) := by
  cases oc <;> exact checkExit_exitInv _ h

theorem completeStep_countInv (p : List Char → Option Json) (s : BridgeState)
    (oc : HttpOutcome) (hf : s.inFlight ≠ 0) (h : countInv s) :
    countInv (completeStep p s oc) := by
  obtain ⟨h1, h2⟩ := h
  cases oc with
  | failure msg =>
    simp only [completeStep]
    refine ⟨?_, ?_⟩
    · rw [checkExit_pendingRequests, checkExit_inFlight]
      show s.pendingRequests - 1 = ((s.inFlight - 1 : Nat) : Int)
      omega
    · rw [checkExit_sentRequests, checkExit_pendingRequests, checkExit_completedCount]
      show (s.sentRequests.length : Int)
        = s.pendingRequests - 1 + ((s.completedCount + 1 : Nat) : Int)
      omega
  | success resp =>
    simp only [completeStep]
    refine ⟨?_, ?_⟩
    · rw [checkExit_pendingRequests, checkExit_inFlight]
      show s.pendingRequests - 1 = ((s.inFlight - 1 : Nat) : Int)
      omega
    · rw [checkExit_sentRequests, checkExit_pendingRequests, checkExit_completedCount]
      show (s.sentRequests.length : Int)
        = s.pendingRequests - 1 + ((s.completedCount + 1 : Nat) : Int)
      omega

theorem completeStep_sessionId_failure (p : List Char → Option Json) (s : BridgeState)
    (msg : List Char) :
    (completeStep p s (HttpOutcome.failure msg)).sessionId = s.sessionId := by
  simp [completeStep, checkExit_sessionId]

theorem completeStep_sessionId_success (p : List Char → Option Json) (s : BridgeState)
    (resp : HttpResponse) :
    (completeStep p s (HttpOutcome.success resp)).sessionId
      = updateSession s.sessionId resp.mcpSessionId := by
  simp [completeStep, checkExit_sessionId]

theorem step_exitInv (p : List Char → Option Json) (s : BridgeState) (e : Event)
    (h : exitInv s) : exitInv (step p s e) := by
  cases e with
  | data chunk =>
    simp only [step]
    split
    case isTrue _ => exact h
    case isFalse hg =>
      have hg2 : s.exited = false ∧ s.stdinClosed = false := by
        simpa using hg
      unfold exitInv
      rw [onData_stdinClosed, onData_exited_of_not_closed p s chunk hg2.2, hg2.1, hg2.2]
      simp
  | endInput =>
    simp only [step]
    split
    case isTrue _ => exact h
    case isFalse hg =>
      have hg2 : s.exited = false ∧ s.stdinClosed = false := by
        simpa using hg
      exact onEnd_exitInv p s hg2.2 hg2.1
  | complete oc =>
    simp only [step]
    split
    case isTrue _ => exact h
    case isFalse hg =>
      have hg2 : s.exited = false ∧ ¬s.inFlight = 0 := by
        simpa using hg
      exact completeStep_exitInv p s oc hg2.1

theorem step_countInv (p : List Char → Option Json) (s : BridgeState) (e : Event)
    (h : countInv s) : countInv (step p s e) := by
  cases e with
  | data chunk =>
    simp only [step]
    split
    case isTrue _ => exact h
    case isFalse _ => exact onData_countInv p s chunk h
  | endInput =>
    simp only [step]
    split
    case isTrue _ => exact h
    case isFalse _ => exact onEnd_countInv p s h
  | complete oc =>
    simp only [step]
    split
    case isTrue _ => exact h
    case isFalse hg =>
      have hf : s.inFlight ≠ 0 := by
        intro hc
        exact hg (by simp [hc])
      exact completeStep_countInv p s oc hf h

theorem step_sessionOk (p : List Char → Option Json) (s : BridgeState) (e : Event)
    (h : sessionOk s) : sessionOk (step p s e) := by
  cases e with
  | data chunk =>
    simp only [step]
    split
    case isTrue _ => exact h
    case isFalse _ =>
      intro v hv
      rw [onData_sessionId] at hv
      exact h v hv
  | endInput =>
    simp only [step]
    split
    case isTrue _ => exact h
    case isFalse _ =>
      intro v hv
      rw [onEnd_sessionId] at hv
      exact h v hv
  | complete oc =>
    simp only [step]
    split
    case isTrue _ => exact h
    case isFalse _ =>
      cases oc with
      | failure msg =>
        intro v hv
        rw [completeStep_sessionId_failure] at hv
        exact h v hv
      | success resp =>
        intro v hv
        rw [completeStep_sessionId_success] at hv
        exact updateSession_ok s.sessionId resp.mcpSessionId h v hv

theorem step_sessionId_some (p : List Char → Option Json) (s : BridgeState) (e : Event)
    (v : List Char) (h : s.sessionId = some v) :
    ∃ w, (step p s e).sessionId = some w := by
  cases e with
  | data chunk =>
    simp only [step]
    split
    case isTrue _ => exact ⟨v, h⟩
    case isFalse _ => exact ⟨v, by rw [onData_sessionId]; exact h⟩
  | endInput =>
    simp only [step]
    split
    case isTrue _ => exact ⟨v, h⟩
    case isFalse _ => exact ⟨v, by rw [onEnd_sessionId]; exact h⟩
  | complete oc =>
    simp only [step]
    split
    case isTrue _ => exact ⟨v, h⟩
    case isFalse _ =>
      cases oc with
      | failure msg => exact ⟨v, by rw [completeStep_sessionId_failure]; exact h⟩
      | success resp =>
        obtain ⟨w, hw⟩ := updateSession_of_some v resp.mcpSessionId
        exact ⟨w, by rw [completeStep_sessionId_success, h]; exact hw⟩

theorem step_sentRequests_sub (p : List Char → Option Json) (s : BridgeState)
    (e : Event) (r : SentRequest) (h : r ∈ (step p s e).sentRequests) :
    r ∈ s.sentRequests ∨ r.sessionHeader = jsSessionHeader s.sessionId := by
  cases e with
  | data chunk =>
    simp only [step] at h
    revert h
    split
    case isTrue _ => exact fun h => Or.inl h
    case isFalse _ => exact fun h => onData_sentRequests_sub p s chunk r h
  | endInput =>
    simp only [step] at h
    revert h
    split
    case isTrue _ => exact fun h => Or.inl h
    case isFalse _ => exact fun h => onEnd_sentRequests_sub p s r h
  | complete oc =>
    simp only [step] at h
    revert h
    split
    case isTrue _ => exact fun h => Or.inl h
    case isFalse _ =>
      rw [completeStep_sentRequests]
      exact fun h => Or.inl h

theorem run_nil (p : List Char → Option Json) (s : BridgeState) :
    run p s [] = s := rfl

theorem run_cons (p : List Char → Option Json) (s : BridgeState) (e : Event)
    (evs : List Event) : run p s (e :: evs) = run p (step p s e) evs := rfl

theorem run_append (p : List Char → Option Json) (s : BridgeState)
    (a b : List Event) : run p s (a ++ b) = run p (run p s a) b := by
  unfold run
  exact List.foldl_append _ _ a b

theorem run_exitInv (p : List Char → Option Json) :
    ∀ (evs : List Event) (s : BridgeState), exitInv s → exitInv (run p s evs) := by
  intro evs
  induction evs with
  | nil => intro s h; exact h
  | cons e evs ih =>
    intro s h
    rw [run_cons]
    exact ih _ (step_exitInv p s e h)

theorem run_countInv (p : List Char → Option Json) :
    ∀ (evs : List Event) (s : BridgeState), countInv s → countInv (run p s evs) := by
  intro evs
  induction evs with
  | nil => intro s h; exact h
  | cons e evs ih =>
    intro s h
    rw [run_cons]
    exact ih _ (step_countInv p s e h)

theorem run_sessionOk (p : List Char → Option Json) :
    ∀ (evs : List Event) (s : BridgeState), sessionOk s → sessionOk (run p s evs) := by
  intro evs
  induction evs with
  | nil => intro s h; exact h
  | cons e evs ih =>
    intro s h
    rw [run_cons]
    exact ih _ (step_sessionOk p s e h)

theorem initState_exitInv : exitInv initState := by
  unfold exitInv initState
  simp

theorem initState_countInv : countInv initState := by
  unfold countInv initState
  simp

theorem initState_sessionOk : sessionOk initState := by
  intro v hv
  cases hv

theorem step_sessionId_cases (p : List Char → Option Json) (s : BridgeState)
    (e : Event) :
    (step p s e).sessionId = s.sessionId ∨
    ∃ resp v, e = Event.complete (HttpOutcome.success resp) ∧
      resp.mcpSessionId = some v ∧ v ≠ [] ∧
      (step p s e).sessionId = some v := by
  cases e with
  | data chunk =>
    left
    simp only [step]
    split
    · rfl
    · exact onData_sessionId p s chunk
  | endInput =>
    left
    simp only [step]
    split
    · rfl
    · exact onEnd_sessionId p s
  | complete oc =>
    simp only [step]
    split
    · exact Or.inl rfl
    · cases oc with
      | failure msg => exact Or.inl (completeStep_sessionId_failure p s msg)
      | success resp =>
        rcases hh : resp.mcpSessionId with _ | v
        · left
          rw [completeStep_sessionId_success, hh]
          rfl
        · by_cases hv : v = []
          · left
            rw [completeStep_sessionId_success, hh]
            subst hv
            simp [updateSession]
          · right
            refine ⟨resp, v, rfl, hh, hv, ?_⟩
            rw [completeStep_sessionId_success, hh]
            simp [updateSession, hv]

theorem run_sessionId_stable (p : List Char → Option Json) :
    ∀ (ext : List Event) (s : BridgeState),
      (∀ resp v, Event.complete (HttpOutcome.success resp) ∈ ext →
          resp.mcpSessionId = some v → v = []) →
      (run p s ext).sessionId = s.sessionId := by
  intro ext
  induction ext with
  | nil => intro s _; rfl
  | cons e ext ih =>
    intro s hq
    rw [run_cons]
    have hstep : (step p s e).sessionId = s.sessionId := by
      rcases step_sessionId_cases p s e with h | ⟨resp, v, he, hh, hv, _⟩
      · exact h
      · exact absurd (hq resp v (he ▸ List.mem_cons_self e ext) hh) hv
    rw [ih (step p s e)
      (fun resp v hm hh => hq resp v (List.mem_cons_of_mem e hm) hh), hstep]

theorem run_sentRequests_stable (p : List Char → Option Json) :
    ∀ (ext : List Event) (s : BridgeState),
      (∀ resp v, Event.complete (HttpOutcome.success resp) ∈ ext →
          resp.mcpSessionId = some v → v = []) →
      ∀ r, r ∈ (run p s ext).sentRequests →
        r ∈ s.sentRequests ∨ r.sessionHeader = jsSessionHeader s.sessionId := by
  intro ext
  induction ext with
  | nil => intro s _ r hr; exact Or.inl hr
  | cons e ext ih =>
    intro s hq r hr
    rw [run_cons] at hr
    have hstep : (step p s e).sessionId = s.sessionId := by
      rcases step_sessionId_cases p s e with h | ⟨resp, v, he, hh, hv, _⟩
      · exact h
      · exact absurd (hq resp v (he ▸ List.mem_cons_self e ext) hh) hv
    rcases ih (step p s e)
        (fun resp v hm hh => hq resp v (List.mem_cons_of_mem e hm) hh) r hr with
      h2 | h2
    · exact step_sentRequests_sub p s e r h2
    · right
      rw [h2, hstep]

theorem splitNl_ne_nil : ∀ l : List Char, splitNl l ≠ []
  | [] => by simp [splitNl]
  | c :: cs => by
    simp only [splitNl]
    split
    · simp
    · split <;> simp

theorem splitNl_cons_nl (cs : List Char) : splitNl ('\n' :: cs) = [] :: splitNl cs := by
  simp [splitNl]

theorem splitNl_cons_other (c : Char) (cs : List Char) (hc : ¬c = '\n')
    (h : List Char) (t : List (List Char)) (he : splitNl cs = h :: t) :
    splitNl (c :: cs) = (c :: h) :: t := by
  simp [splitNl, hc, he]

theorem splitNl_of_noNl : ∀ l : List Char, '\n' ∉ l → splitNl l = [l]
  | [], _ => rfl
  | c :: cs, h => by
    have hc : ¬c = '\n' := by
      intro e
      exact h (by simp [e])
    have ht : '\n' ∉ cs := fun hm => h (List.mem_cons_of_mem c hm)
    rw [splitNl_cons_other c cs hc cs [] (splitNl_of_noNl cs ht)]

theorem splitNl_dest (l : List Char) :
    ∃ h t, splitNl l = h :: t := by
  cases hh : splitNl l with
  | nil => exact absurd hh (splitNl_ne_nil l)
  | cons a b => exact ⟨a, b, rfl⟩

theorem noNl_of_mem_splitNl : ∀ (l : List Char) (x : List Char),
    x ∈ splitNl l → '\n' ∉ x
  | [], x, hx => by
    simp [splitNl] at hx
    simp [hx]
  | c :: cs, x, hx => by
    by_cases hc : c = '\n'
    · subst hc
      rw [splitNl_cons_nl] at hx
      rcases List.mem_cons.mp hx with h | h
      · simp [h]
      · exact noNl_of_mem_splitNl cs x h
    · obtain ⟨h, t, he⟩ := splitNl_dest cs
      rw [splitNl_cons_other c cs hc h t he] at hx
      rcases List.mem_cons.mp hx with h2 | h2
      · subst h2
        intro hmem
        rcases List.mem_cons.mp hmem with h3 | h3
        · exact hc h3.symm
        · have hh : h ∈ splitNl cs := by
            rw [he]
            exact List.mem_cons_self h t
          exact noNl_of_mem_splitNl cs h hh h3
      · have hx2 : x ∈ splitNl cs := by
          rw [he]
          exact List.mem_cons_of_mem h h2
        exact noNl_of_mem_splitNl cs x hx2

theorem lastPart_mem : ∀ (l : List (List Char)), l ≠ [] → lastPart l ∈ l
  | [], h => absurd rfl h
  | [x], _ => by simp [lastPart]
  | x :: y :: t, _ => by
    have hm := lastPart_mem (y :: t) (by simp)
    simp only [lastPart]
    exact List.mem_cons_of_mem x hm

theorem noNl_lastPart_splitNl (l : List Char) : '\n' ∉ lastPart (splitNl l) :=
  noNl_of_mem_splitNl l _ (lastPart_mem _ (splitNl_ne_nil l))

theorem lastPart_cons_of_ne_nil : ∀ (x : List Char) (t : List (List Char)),
    t ≠ [] → lastPart (x :: t) = lastPart t
  | _, [], h => absurd rfl h
  | _, _ :: _, _ => by simp only [lastPart]

theorem lastPart_append_of_ne_nil : ∀ (a b : List (List Char)), b ≠ [] →
    lastPart (a ++ b) = lastPart b
  | [], _, _ => rfl
  | x :: a, b, hb => by
    rw [List.cons_append, lastPart_cons_of_ne_nil x (a ++ b)
      (fun hc => hb (List.append_eq_nil.mp hc).2)]
    exact lastPart_append_of_ne_nil a b hb

theorem dropLast_append_of_ne_nil : ∀ (a b : List (List Char)), b ≠ [] →
    (a ++ b).dropLast = a ++ b.dropLast
  | _, [], h => absurd rfl h
  | a, x :: b, _ => by rw [List.dropLast_append_cons]

theorem splitNl_append : ∀ a b : List Char,
    splitNl (a ++ b)
      = (splitNl a).dropLast ++ splitNl (lastPart (splitNl a) ++ b) := by
  intro a
  induction a with
  | nil =>
    intro b
    simp [splitNl, lastPart]
  | cons c a ih =>
    intro b
    by_cases hc : c = '\n'
    · subst hc
      obtain ⟨h, t, he⟩ := splitNl_dest a
      rw [List.cons_append, splitNl_cons_nl, splitNl_cons_nl, ih b, he,
        lastPart_cons_of_ne_nil [] (h :: t) (by simp),
        show ([] :: h :: t).dropLast = [] :: (h :: t).dropLast from rfl,
        List.cons_append]
    · obtain ⟨h, t, he⟩ := splitNl_dest a
      cases t with
      | nil =>
        have hsa : splitNl (a ++ b) = splitNl (h ++ b) := by
          rw [ih b, he]
          simp [lastPart]
        obtain ⟨h2, t2, he2⟩ := splitNl_dest (h ++ b)
        rw [List.cons_append,
          splitNl_cons_other c (a ++ b) hc h2 t2 (hsa ▸ he2),
          splitNl_cons_other c a hc h [] he]
        simp only [List.dropLast_single, List.nil_append, lastPart]
        rw [show (c :: h) ++ b = c :: (h ++ b) from rfl,
          splitNl_cons_other c (h ++ b) hc h2 t2 he2]
      | cons t1 t2 =>
        have hsa : splitNl (a ++ b)
            = h :: ((t1 :: t2).dropLast ++ splitNl (lastPart (t1 :: t2) ++ b)) := by
          rw [ih b, he, lastPart_cons_of_ne_nil h (t1 :: t2) (by simp)]
          rfl
        rw [List.cons_append,
          splitNl_cons_other c (a ++ b) hc h
            ((t1 :: t2).dropLast ++ splitNl (lastPart (t1 :: t2) ++ b)) hsa,
          splitNl_cons_other c a hc h (t1 :: t2) he,
          lastPart_cons_of_ne_nil (c :: h) (t1 :: t2) (by simp)]
        rfl

theorem trim_eq_nil_of_all_ws (l : List Char) (h : l.all wsChar = true) :
    trimChars l = [] := by
  unfold trimChars
  have hd : l.dropWhile wsChar = [] :=
    List.dropWhile_eq_nil_iff.mpr (fun x hx => (List.all_eq_true.mp h) x hx)
  rw [hd]
  rfl

theorem run_data_framed (p : List Char → Option Json) :
    ∀ (cs : List (List Char)) (s : BridgeState),
      s.stdinClosed = false → s.exited = false → '\n' ∉ s.buffer →
      (run p s (cs.map Event.data)).framedLines
          = s.framedLines ++ (splitNl (s.buffer ++ joinChunks cs)).dropLast ∧
      (run p s (cs.map Event.data)).buffer
          = lastPart (splitNl (s.buffer ++ joinChunks cs)) ∧
      (run p s (cs.map Event.data)).stdinClosed = false ∧
      (run p s (cs.map Event.data)).exited = false := by
  intro cs
  induction cs with
  | nil =>
    intro s h1 h2 h3
    rw [show joinChunks [] = [] from rfl, List.append_nil, splitNl_of_noNl s.buffer h3]
    simp [run, lastPart, h1, h2]
  | cons c cs ih =>
    intro s h1 h2 h3
    rw [List.map_cons, run_cons]
    have hstep : step p s (Event.data c) = onData p s c := by
      simp [step, h1, h2]
    rw [hstep]
    have hb : (onData p s c).buffer = lastPart (splitNl (s.buffer ++ c)) :=
      onData_buffer p s c
    have hcl : (onData p s c).stdinClosed = false := by
      rw [onData_stdinClosed]
      exact h1
    have hex : (onData p s c).exited = false := by
      rw [onData_exited_of_not_closed p s c h1]
      exact h2
    have hnl : '\n' ∉ (onData p s c).buffer := by
      rw [hb]
      exact noNl_lastPart_splitNl _
    obtain ⟨ih1, ih2, ih3, ih4⟩ := ih (onData p s c) hcl hex hnl
    refine ⟨?_, ?_, ih3, ih4⟩
    · rw [ih1, onData_framedLines, hb,
        show joinChunks (c :: cs) = c ++ joinChunks cs from rfl,
        ← List.append_assoc,
        splitNl_append (s.buffer ++ c) (joinChunks cs),
        dropLast_append_of_ne_nil _ _ (splitNl_ne_nil _),
        List.append_assoc]
    · rw [ih2, hb, show joinChunks (c :: cs) = c ++ joinChunks cs from rfl,
        ← List.append_assoc, splitNl_append (s.buffer ++ c) (joinChunks cs),
        lastPart_append_of_ne_nil _ _ (splitNl_ne_nil _)]

theorem run_framed_spec (p : List Char → Option Json) (cs : List (List Char)) :
    (run p initState (cs.map Event.data ++ [Event.endInput])).framedLines
      = specFramerLines (joinChunks cs) := by
  rw [run_append]
  obtain ⟨h1, h2, h3, h4⟩ := run_data_framed p cs initState rfl rfl (by simp [initState])
  have hstep : run p (run p initState (cs.map Event.data)) [Event.endInput]
      = onEnd p (run p initState (cs.map Event.data)) := by
    rw [run_cons, run_nil]
    simp [step, h3, h4]
  rw [hstep, onEnd_framedLines, h1, h2]
  unfold specFramerLines
  simp [initState]

theorem sse_foldl_eq (p : List Char → Option Json) :
    ∀ (lines : List (List Char)) (acc : List Json),
      lines.foldl
        (fun events line =>
          if beginsWith ssePfx line then
            match p (line.drop 6) with
            | some e => events ++ [e]
            | none => events
          else events) acc
      = acc ++ lines.filterMap
          (fun line => if beginsWith ssePfx line then p (line.drop 6) else none) := by
  intro lines
  induction lines with
  | nil =>
    intro acc
    simp
  | cons l ls ih =>
    intro acc
    rw [List.foldl_cons, List.filterMap_cons]
    cases hb : beginsWith ssePfx l
    · simp only [hb, Bool.false_eq_true, if_false]
      exact ih acc
    · simp only [hb, if_true]
      rcases hp : p (l.drop 6) with _ | e
      · simp only [hp]
        exact ih acc
      · simp only [hp]
        rw [ih (acc ++ [e]), List.append_assoc]
        rfl

theorem writeResponses_foldl_eq :
    ∀ (rs : List Json) (acc : List (List Char)),
      rs.foldl (fun out r => if jsTruthy r then out ++ [stringify r ++ ['\n']] else out) acc
      = acc ++ rs.filterMap
          (fun r => if jsTruthy r then some (stringify r ++ ['\n']) else none) := by
  intro rs
  induction rs with
  | nil =>
    intro acc
    simp
  | cons r rs ih =>
    intro acc
    rw [List.foldl_cons, List.filterMap_cons]
    cases hb : jsTruthy r
    · simp only [hb, Bool.false_eq_true, if_false]
      exact ih acc
    · simp only [hb, if_true]
      rw [ih (acc ++ [stringify r ++ ['\n']]), List.append_assoc]
      rfl

/-- C1: for every run of the bridge (any event trace from the startup
state), the process has exited with status 0 exactly when the input
stream is closed and the pending-request counter is zero.  The equation
holds after every trace, i.e. after every state transition, so in
particular the process never exits while `pendingRequests > 0` or while
input is still open. -/
theorem termination_c1 (p : List Char → Option Json) (events : List Event) :
    (run p initState events).exited
      = ((run p initState events).stdinClosed
          && (run p initState events).pendingRequests == 0) :=
  run_exitInv p events initState initState_exitInv

/-- C2 (amended): for every decoded event sequence of one dispatch, the
Output Writer writes, in order, one line per truthy event — the event's
JSON serialization followed by a newline — and skips exactly the falsy
events: `null`, `false`, the number `0` and the empty string
(JavaScript truthiness), not only absent/null ones. -/
theorem output_writer_c2 (rs : List Json) :
    writeResponses rs
      = rs.filterMap
          (fun r => if jsTruthy r then some (stringify r ++ ['\n']) else none) := by
  unfold writeResponses
  rw [writeResponses_foldl_eq rs []]
  rfl

/-- C2 counterexample: the decoded event `0` is a non-null JSON value,
so the claim requires it to be written as an output line, but the code's
truthiness test `if (response)` skips it: the writer emits nothing while
the claimed behaviour emits the line `0`. -/
theorem output_writer_c2_cex :
    writeResponses [Json.num 0] = [] ∧
    writeEventsSpecC2 [Json.num 0] = [['0', '\n']] ∧
    writeResponses [Json.num 0] ≠ writeEventsSpecC2 [Json.num 0] := by
  refine ⟨rfl, rfl, ?_⟩
  decide

/-- C3: the SSE decoder splits the body on newlines and keeps, in
encounter order, exactly the successful JSON parses of the remainders of
lines starting with `data: `; other lines and parse failures are
skipped.  On the spec's example body the result is the ordered pair of
objects with the malformed middle line dropped. -/
theorem sse_decoder_c3 :
    (∀ (p : List Char → Option Json) (body : List Char),
        parseSSE p body
          = (splitNl body).filterMap
              (fun line => if beginsWith ssePfx line then p (line.drop 6) else none)) ∧
    parseSSE jsonParse
        (("data: \x7b\"a\":1\x7d\ndata: not-json\ndata: \x7b\"b\":2\x7d\n").toList)
      = [Json.obj [(("a").toList, Json.num 1)], Json.obj [(("b").toList, Json.num 2)]] := by
  constructor
  · intro p body
    unfold parseSSE
    rw [sse_foldl_eq p (splitNl body) []]
    rfl
  · rfl

/-- C4 (amended): a stored affinity token is always a non-empty header
value; every transition either leaves the token value exactly unchanged —
in particular any data chunk, the end of input, a network failure, and
any response whose session header is absent or empty — or is the
completion of a response carrying a non-empty session header value, in
which case the token becomes exactly that value (so the token is never
cleared, and its value persists until overwritten by a new non-empty
value); every request issued from a state carries exactly the token of
that state as its session header (no header while the token is unset);
over any stretch of the run in which no response carries a non-empty
session header value, the token value is unchanged and every newly
issued request carries exactly the token held at the start of the
stretch; and a completing response carrying a non-empty session header
value sets the token to that value. -/
theorem affinity_token_c4 :
    (∀ (p : List Char → Option Json) (events : List Event) (v : List Char),
        (run p initState events).sessionId = some v → v ≠ []) ∧
    (∀ (p : List Char → Option Json) (s : BridgeState) (e : Event),
        (step p s e).sessionId = s.sessionId ∨
        ∃ resp v, e = Event.complete (HttpOutcome.success resp) ∧
          resp.mcpSessionId = some v ∧ v ≠ [] ∧
          (step p s e).sessionId = some v) ∧
    (∀ (p : List Char → Option Json) (events : List Event) (e : Event) (r : SentRequest),
        r ∈ (run p initState (events ++ [e])).sentRequests →
        r ∈ (run p initState events).sentRequests ∨
          r.sessionHeader = (run p initState events).sessionId) ∧
    (∀ (p : List Char → Option Json) (events ext : List Event),
        (∀ resp v, Event.complete (HttpOutcome.success resp) ∈ ext →
            resp.mcpSessionId = some v → v = []) →
        (run p initState (events ++ ext)).sessionId
            = (run p initState events).sessionId ∧
        (∀ r, r ∈ (run p initState (events ++ ext)).sentRequests →
          r ∈ (run p initState events).sentRequests ∨
            r.sessionHeader = (run p initState events).sessionId)) ∧
    (∀ (p : List Char → Option Json) (s : BridgeState) (resp : HttpResponse)
        (v : List Char),
        s.exited = false → s.inFlight ≠ 0 → resp.mcpSessionId = some v → v ≠ [] →
        (step p s (Event.complete (HttpOutcome.success resp))).sessionId = some v) := by
  refine ⟨?_, ?_, ?_, ?_, ?_⟩
  · intro p events v h
    exact run_sessionOk p events initState initState_sessionOk v h
  · intro p s e
    exact step_sessionId_cases p s e
  · intro p events e r h
    rw [run_append, run_cons, run_nil] at h
    rcases step_sentRequests_sub p (run p initState events) e r h with h2 | h2
    · exact Or.inl h2
    · right
      rw [h2]
      rcases hs : (run p initState events).sessionId with _ | v
      · rfl
      · have hv : v ≠ [] := run_sessionOk p events initState initState_sessionOk v hs
        simp [jsSessionHeader, hv]
  · intro p events ext hq
    rw [run_append]
    refine ⟨run_sessionId_stable p ext _ hq, ?_⟩
    intro r hr
    rcases run_sentRequests_stable p ext _ hq r hr with h2 | h2
    · exact Or.inl h2
    · right
      rw [h2]
      rcases hs : (run p initState events).sessionId with _ | v
      · rfl
      · have hv : v ≠ [] := run_sessionOk p events initState initState_sessionOk v hs
        simp [jsSessionHeader, hv]
  · intro p s resp v h1 h2 h3 h4
    have hg : (s.exited || s.inFlight == 0) = false := by
      simp [h1, h2]
    rw [show step p s (Event.complete (HttpOutcome.success resp))
        = completeStep p s (HttpOutcome.success resp) by simp [step, hg]]
    rw [completeStep_sessionId_success, h3]
    simp [updateSession, h4]

/-- C4 witness: a concrete completion carrying the non-empty header value
`S` sets the token to `S`, and over a subsequent stretch with an
absent-header completion and a further request the token value and the
issued request's header are both `S`. -/
theorem affinity_token_c4_witness :
    (step jsonParse { initState with inFlight := 1 }
        (Event.complete (HttpOutcome.success
          { mcpSessionId := some ['S'], contentType := [], body := [] }))).sessionId
      = some ['S'] ∧
    (run jsonParse initState
        ([Event.data (("\x7b\"id\":1\x7d\n").toList),
          Event.complete (HttpOutcome.success
            { mcpSessionId := some ['S'], contentType := [], body := [] })] ++
         [Event.data (("\x7b\"id\":2\x7d\n").toList),
          Event.complete (HttpOutcome.success
            { mcpSessionId := none, contentType := [], body := [] })])).sessionId
      = (run jsonParse initState
          [Event.data (("\x7b\"id\":1\x7d\n").toList),
           Event.complete (HttpOutcome.success
             { mcpSessionId := some ['S'], contentType := [], body := [] })]).sessionId :=
  ⟨affinity_token_c4.2.2.2.2 jsonParse { initState with inFlight := 1 }
      { mcpSessionId := some ['S'], contentType := [], body := [] } ['S']
      rfl (by decide) rfl (by decide),
   (affinity_token_c4.2.2.2.1 jsonParse
      [Event.data (("\x7b\"id\":1\x7d\n").toList),
       Event.complete (HttpOutcome.success
         { mcpSessionId := some ['S'], contentType := [], body := [] })]
      [Event.data (("\x7b\"id\":2\x7d\n").toList),
       Event.complete (HttpOutcome.success
         { mcpSessionId := none, contentType := [], body := [] })]
      (by
        intro resp v hm hh
        rcases List.mem_cons.mp hm with h | h
        · cases h
        · rcases List.mem_cons.mp h with h2 | h2
          · cases h2
            cases hh
          · cases h2)).1⟩

/-- C4 counterexample: the response to the first request supplies the
session header value `""` (the empty string); the claim requires the
token to be set to that value and the next request to carry it, but the
code's truthiness test drops the empty value: the token stays unset and
both issued requests carry no session header. -/
theorem affinity_token_c4_cex :
    (run jsonParse initState
        [Event.data (("\x7b\"id\":1\x7d\n").toList)]).inFlight = 1 ∧
    (run jsonParse initState
        [Event.data (("\x7b\"id\":1\x7d\n").toList),
         Event.complete (HttpOutcome.success
           { mcpSessionId := some [], contentType := [], body := [] })]).sessionId
      = none ∧
    ((run jsonParse initState
        [Event.data (("\x7b\"id\":1\x7d\n").toList),
         Event.complete (HttpOutcome.success
           { mcpSessionId := some [], contentType := [], body := [] }),
         Event.data (("\x7b\"id\":2\x7d\n").toList)]).sentRequests.map
        SentRequest.sessionHeader) = [none, none] := by
  decide

/-- C5: in every reachable state the pending counter is non-negative,
and issued requests are accounted exactly: the number of requests sent
equals the pending counter plus the number of completions, so there is
exactly one decrement (completion) per increment (dispatch). -/
theorem pending_count_c5 (p : List Char → Option Json) (events : List Event) :
    0 ≤ (run p initState events).pendingRequests ∧
    ((run p initState events).sentRequests.length : Int)
      = (run p initState events).pendingRequests
        + ((run p initState events).completedCount : Int) := by
  obtain ⟨h1, h2⟩ := run_countInv p events initState initState_countInv
  refine ⟨?_, h2⟩
  omega

/-- C6: a non-blank input line that does not parse as JSON makes the
dispatcher write a diagnostic to stderr, issue no HTTP request, write no
output line, and leave the pending counter unchanged — so it cannot
delay termination. -/
theorem malformed_line_c6 (p : List Char → Option Json) (s : BridgeState)
    (line : List Char) (hb : trimChars line ≠ []) (hp : p line = none) :
    (processLineStart p s line).stderrLines = s.stderrLines ++ [Diag.parseError] ∧
    (processLineStart p s line).sentRequests = s.sentRequests ∧
    (processLineStart p s line).inFlight = s.inFlight ∧
    (processLineStart p s line).stdoutLines = s.stdoutLines ∧
    (processLineStart p s line).pendingRequests = s.pendingRequests := by
  have he : processLineStart p s line
      = checkExit { s with stderrLines := s.stderrLines ++ [Diag.parseError] } := by
    unfold processLineStart
    rw [if_neg hb, hp]
  rw [he, checkExit_stderrLines, checkExit_sentRequests, checkExit_inFlight,
    checkExit_stdoutLines, checkExit_pendingRequests]
  exact ⟨rfl, rfl, rfl, rfl, rfl⟩

/-- C6 witness: the concrete malformed line `{bad` from the startup
state: one diagnostic, no request, no output, counter still zero. -/
theorem malformed_line_c6_witness :
    (processLineStart jsonParse initState (("\x7bbad").toList)).stderrLines
      = [Diag.parseError] ∧
    (processLineStart jsonParse initState (("\x7bbad").toList)).sentRequests = [] ∧
    (processLineStart jsonParse initState (("\x7bbad").toList)).inFlight = 0 ∧
    (processLineStart jsonParse initState (("\x7bbad").toList)).stdoutLines = [] ∧
    (processLineStart jsonParse initState (("\x7bbad").toList)).pendingRequests = 0 := by
  have h := malformed_line_c6 jsonParse initState (("\x7bbad").toList) (by decide) rfl
  simpa [initState] using h

/-- C7: the response decoder is total (a Lean function): a whitespace-only
(or empty) body decodes to no events for every content type, and for any
content type not containing the event-stream marker a non-blank body is
parsed as one JSON document — one event on success, none on failure. -/
theorem decoder_total_c7 (p : List Char → Option Json) (ct body : List Char) :
    (body.all wsChar = true → decodeBody p ct body = []) ∧
    (hasSub ct sseCT = false → trimChars body ≠ [] →
      decodeBody p ct body
        = (match p body with
           | some j => [j]
           | none => [])) := by
  constructor
  · intro h
    unfold decodeBody
    rw [if_pos (trim_eq_nil_of_all_ws body h)]
  · intro h1 h2
    unfold decodeBody
    rw [if_neg h2, h1]
    simp

/-- C7 witness: a whitespace body decodes to nothing, and a plain-JSON
body decodes through the single-document path. -/
theorem decoder_total_c7_witness :
    decodeBody jsonParse (("application/json").toList) ((" ").toList) = [] ∧
    decodeBody jsonParse (("application/json").toList) (("0").toList)
      = (match jsonParse (("0").toList) with
         | some j => [j]
         | none => []) :=
  ⟨(decoder_total_c7 jsonParse (("application/json").toList) ((" ").toList)).1
      (by decide),
   (decoder_total_c7 jsonParse (("application/json").toList) (("0").toList)).2
      (by decide) (by decide)⟩

/-- C8: over any whole run, the lines the code hands to `processLine`
are exactly the spec's framing of the concatenated input — every
newline-separated segment except the last, plus the final segment when
not whitespace-only; after any data-only prefix the retained buffer is
the last segment; and a blank or whitespace-only line is dropped by
`processLine` with no effect at all (no dispatch, no diagnostic). -/
theorem line_framer_c8 :
    (∀ (p : List Char → Option Json) (cs : List (List Char)),
        (run p initState (cs.map Event.data ++ [Event.endInput])).framedLines
          = specFramerLines (joinChunks cs)) ∧
    (∀ (p : List Char → Option Json) (cs : List (List Char)),
        (run p initState (cs.map Event.data)).buffer
          = lastPart (splitNl (joinChunks cs))) ∧
    (∀ (p : List Char → Option Json) (s : BridgeState) (line : List Char),
        trimChars line = [] → processLineStart p s line = s) := by
  refine ⟨?_, ?_, ?_⟩
  · intro p cs
    exact run_framed_spec p cs
  · intro p cs
    have h := (run_data_framed p cs initState rfl rfl (by simp [initState])).2.1
    simpa [initState] using h
  · intro p s line h
    unfold processLineStart
    rw [if_pos h]

/-- C8 witness: a concrete whitespace-only line leaves the state
untouched. -/
theorem line_framer_c8_witness :
    processLineStart jsonParse initState ([' ', '\t']) = initState :=
  line_framer_c8.2.2 jsonParse initState [' ', '\t'] (by decide)

/-- C9: dispatch is not serialized: after one chunk carrying the two
lines `{"id":1}` and `{"id":2}` the pending counter reaches 2 with no
response yet arrived; closing stdin does not terminate the process while
the two calls are in flight; the first completion leaves it running with
one pending call; only the second completion drains the counter to 0 and
terminates the process. -/
theorem no_serialization_c9 :
    (run jsonParse initState
        [Event.data (("\x7b\"id\":1\x7d\n\x7b\"id\":2\x7d\n").toList)]).pendingRequests
      = 2 ∧
    (run jsonParse initState
        [Event.data (("\x7b\"id\":1\x7d\n\x7b\"id\":2\x7d\n").toList)]).exited = false ∧
    (run jsonParse initState
        [Event.data (("\x7b\"id\":1\x7d\n\x7b\"id\":2\x7d\n").toList),
         Event.endInput]).pendingRequests = 2 ∧
    (run jsonParse initState
        [Event.data (("\x7b\"id\":1\x7d\n\x7b\"id\":2\x7d\n").toList),
         Event.endInput]).stdinClosed = true ∧
    (run jsonParse initState
        [Event.data (("\x7b\"id\":1\x7d\n\x7b\"id\":2\x7d\n").toList),
         Event.endInput]).exited = false ∧
    (run jsonParse initState
        [Event.data (("\x7b\"id\":1\x7d\n\x7b\"id\":2\x7d\n").toList),
         Event.endInput,
         Event.complete (HttpOutcome.success
           { mcpSessionId := none, contentType := [], body := [] })]).pendingRequests
      = 1 ∧
    (run jsonParse initState
        [Event.data (("\x7b\"id\":1\x7d\n\x7b\"id\":2\x7d\n").toList),
         Event.endInput,
         Event.complete (HttpOutcome.success
           { mcpSessionId := none, contentType := [], body := [] })]).exited = false ∧
    (run jsonParse initState
        [Event.data (("\x7b\"id\":1\x7d\n\x7b\"id\":2\x7d\n").toList),
         Event.endInput,
         Event.complete (HttpOutcome.success
           { mcpSessionId := none, contentType := [], body := [] }),
         Event.complete (HttpOutcome.success
           { mcpSessionId := none, contentType := [], body := [] })]).pendingRequests
      = 0 ∧
    (run jsonParse initState
        [Event.data (("\x7b\"id\":1\x7d\n\x7b\"id\":2\x7d\n").toList),
         Event.endInput,
         Event.complete (HttpOutcome.success
           { mcpSessionId := none, contentType := [], body := [] }),
         Event.complete (HttpOutcome.success
           { mcpSessionId := none, contentType := [], body := [] })]).exited
      = true := by
  decide

/-- C10: the Line Framer is chunking-independent: two chunkings of the
same input text produce, over the whole run, the same ordered sequence
of lines handed to the dispatcher. -/
theorem framer_chunk_invariance_c10 (p : List Char → Option Json)
    (cs ds : List (List Char)) (h : joinChunks cs = joinChunks ds) :
    (run p initState (cs.map Event.data ++ [Event.endInput])).framedLines
      = (run p initState (ds.map Event.data ++ [Event.endInput])).framedLines := by
  rw [run_framed_spec p cs, run_framed_spec p ds, h]

/-- C10 witness: the chunkings `ab\n | c` and `a | b\nc` of the text
`ab\nc` frame the same lines. -/
theorem framer_chunk_invariance_c10_witness :
    (run jsonParse initState
        ([("ab\n").toList, ("c").toList].map Event.data ++ [Event.endInput])).framedLines
      = (run jsonParse initState
        ([("a").toList, ("b\nc").toList].map Event.data ++ [Event.endInput])).framedLines :=
  framer_chunk_invariance_c10 jsonParse [("ab\n").toList, ("c").toList]
    [("a").toList, ("b\nc").toList] (by decide)

end Bridge
